import Mathlib

/-!
Shallow embedding of `picrust2/metagenome_pipeline.py` (PICRUSt2 2.0.0-b.4).

A pandas DataFrame indexed by sequence id is modelled as an association list
from the row key to the list of that row's values, one rational per column,
in column order.  Rationals stand for the floating-point values; the one
place where a non-finite float (`inf`/`NaN`) can arise -- division by zero --
is modelled explicitly by the `PVal` type.  File input/output (reading the
BIOM table, writing the tsv outputs) is not modelled: the functions below are
the in-memory transformations of the source file.
-/

/-- A pandas numeric cell: either a finite value (modelled as a rational) or
the non-finite result (`inf`, `-inf` or `NaN`) that pandas produces when a
division by zero occurs. -/
inductive PVal
  | fin (q : ℚ)
  | undef
deriving DecidableEq

/-- A data table: rows keyed by identifier, each row holding one rational per
column, in column order. -/
abbrev Tbl := List (String × List ℚ)

/-- Value of table `t` at row `k`, column `j` (0 when absent; the pipeline
aligns all tables to a common row index upstream, so lookups hit). -/
def tbl_val [BEq κ] (t : List (κ × List ℚ)) (k : κ) (j : ℕ) : ℚ :=
  ((t.lookup k).getD []).getD j 0

/-- Column sum `t.sum(axis=0)` at column `j`. -/
def col_sum (t : List (String × List ℚ)) (j : ℕ) : ℚ :=
  (t.map (fun r => r.2.getD j 0)).sum

/-- Division as pandas performs it: a zero divisor yields a non-finite value
(`inf` when the numerator is non-zero, `NaN` when it is zero; both are
`PVal.undef` here). -/
def pdiv (x m : ℚ) : PVal := if m = 0 then PVal.undef else PVal.fin (x / m)

/-- numpy/pandas rounding of `q * 10^2` to an integer, half-to-even tie rule
(ties on the binary floats are abstracted to exact rational ties). -/
def roundHalfEven (q : ℚ) : ℤ :=
  if q - q.floor < 1 / 2 then q.floor
  else if 1 / 2 < q - q.floor then q.floor + 1
  else if q.floor % 2 = 0 then q.floor else q.floor + 1

/-- `round(decimals=2)` on a finite value. -/
def round2 (q : ℚ) : ℚ := (roundHalfEven (q * 100) : ℚ) / 100

/-- `round(decimals=2)` lifted to pandas cells: `inf`/`NaN` round to
themselves. -/
def roundP : PVal → PVal
  | PVal.fin q => PVal.fin (round2 q)
  | PVal.undef => PVal.undef

/-- `norm_by_marker_copies` (metagenome_pipeline.py lines 118-141): divides
each row of the sequence-count table by that sequence's marker-gene copy
number (`input_marker_num` is the single retained marker column, looked up by
row id) and rounds the result to `round_decimal = 2` decimals.  Writing
`norm_filename` is I/O and is not modelled. -/
def norm_by_marker_copies (input_seq_counts : Tbl) (input_marker_num : String → ℚ) :
    List (String × List PVal) :=
  input_seq_counts.map (fun r =>
    (r.1, r.2.map (fun x => roundP (pdiv x (input_marker_num r.1)))))

/-- `calc_weighted_nsti` (lines 98-115): multiplies each row of the count
table by that sequence's NSTI value, then divides the column sums of the
product by the column sums of the raw counts; one value per sample (column).
A sample with zero total abundance makes pandas emit `NaN` (`PVal.undef`).
Writing `outfile` is I/O and is not modelled. -/
def calc_weighted_nsti (seq_counts : Tbl) (nsti : String → ℚ) (nsamp : ℕ) :
    List PVal :=
  (List.range nsamp).map (fun j =>
    pdiv (col_sum (seq_counts.map (fun r => (r.1, r.2.map (fun x => x * nsti r.1)))) j)
      (col_sum seq_counts j))

/-- Line 263: sequences whose total count across all samples is strictly
below `min_reads`. -/
def low_freq_seq (in_counts : Tbl) (min_reads : ℕ) : List String :=
  (in_counts.filter (fun r => decide (r.2.sum < (min_reads : ℚ)))).map Prod.fst

/-- Line 264: sequences that are non-zero in strictly fewer than
`min_samples` samples. -/
def few_samples_seq (in_counts : Tbl) (min_samples : ℕ) : List String :=
  (in_counts.filter (fun r => decide (r.2.countP (fun x => x != 0) < min_samples))).map Prod.fst

/-- `id_rare_seqs` (lines 254-266): aborts (`sys.exit`) when a sequence is
literally named "RARE"; otherwise returns the union of the two failing sets.
The source builds a Python `set` union, whose iteration order is unspecified;
only membership is observable downstream. -/
def id_rare_seqs (in_counts : Tbl) (min_reads min_samples : ℕ) :
    Except String (List String) :=
  if "RARE" ∈ in_counts.map Prod.fst then
    Except.error "Stopping: the sequence called \"RARE\" in the sequence abundance table should be re-named."
  else
    Except.ok ((low_freq_seq in_counts min_reads).union (few_samples_seq in_counts min_samples))

/-- The per-sample abundance column `input_seq_counts[sample]`, as a map from
sequence id to that sample's (column `j`) count. -/
def sample_col (t : Tbl) (j : ℕ) : String → ℚ := fun q => tbl_val t q j

/-- `func_abun.mul(sample_seq_counts, axis=0)` (line 222) followed by the
RARE collapsing of lines 226-229: when the rare list is non-empty, the rows
of rare sequences are removed and one row labelled "RARE" holding their
column-wise sum (over the `nfunc` function columns) is appended
(`.loc["RARE"] = rare_subset_sum` appends at the end). -/
def func_abun_depth_tbl (sample_seq_counts : String → ℚ) (func_abun : Tbl)
    (nfunc : ℕ) (rare_seqs : List String) : Tbl :=
  let depth : Tbl :=
    func_abun.map (fun r => (r.1, r.2.map (fun x => x * sample_seq_counts r.1)))
  if rare_seqs = [] then depth
  else
    (depth.filter (fun r => decide (r.1 ∉ rare_seqs))) ++
      [("RARE", (List.range nfunc).map (fun j =>
        col_sum (depth.filter (fun r => decide (r.1 ∈ rare_seqs))) j))]

/-- Per-sample result of `func_by_seq_abun`: the long-form
(function, sequence)-keyed series of the stratified branch, or the
function-keyed sums of the unstratified branch. -/
inductive SampleFuncs
  | strat (rows : List ((String × String) × ℚ))
  | unstrat (rows : List (String × ℚ))
deriving DecidableEq

/-- `func_by_seq_abun` (lines 211-251).  In the stratified branch `pd.melt`
lists, for each function column in column order, every sequence row in row
order; the resulting series is keyed by (function, sequence).  In the
unstratified branch `sum(axis=0)` gives one value per function column. -/
def func_by_seq_abun (sample_seq_counts : String → ℚ) (func_abun : Tbl)
    (func_ids : List String) (rare_seqs : List String) (calc_strat : Bool) :
    SampleFuncs :=
  let depth := func_abun_depth_tbl sample_seq_counts func_abun func_ids.length rare_seqs
  if calc_strat then
    SampleFuncs.strat ((List.range func_ids.length).flatMap (fun fi =>
      depth.map (fun r => ((func_ids.getD fi "", r.1), r.2.getD fi 0))))
  else
    SampleFuncs.unstrat ((List.range func_ids.length).map (fun fi =>
      (func_ids.getD fi "", col_sum depth fi)))

/-- joblib `Parallel` semantics (lines 169-175): one task per sample is
dispatched; tasks may finish in any order (`completed` lists the finished
(task index, result) pairs in completion order) and `Parallel` returns the
results in submission order. -/
def parallel_collect (completed : List (ℕ × α)) (n : ℕ) (d : α) : List α :=
  (List.range n).map (fun i => ((completed.lookup i).getD d))

/-- Run the `n` per-sample tasks under completion schedule `sched` (the task
indices in the order the workers finish them) and collect the results in
submission order. -/
def parallel_run (f : ℕ → α) (n : ℕ) (sched : List ℕ) (d : α) : List α :=
  parallel_collect (sched.map (fun i => (i, f i))) n d

def SampleFuncs.stratRows : SampleFuncs → List ((String × String) × ℚ)
  | SampleFuncs.strat r => r
  | SampleFuncs.unstrat _ => []

def SampleFuncs.unstratRows : SampleFuncs → List (String × ℚ)
  | SampleFuncs.strat _ => []
  | SampleFuncs.unstrat r => r

/-- `pd.concat(sample_funcs, axis=1)` (line 186) for the identically-indexed
per-sample series produced above: the row keys of the first series, each row
holding the per-sample values in sample order. -/
def concat_cols [BEq κ] (cols : List (List (κ × ℚ))) : List (κ × List ℚ) :=
  ((cols.headD []).map Prod.fst).map (fun k =>
    (k, cols.map (fun c => ((c.lookup k).getD 0))))

/-- Line 189: remove rows that are all zeros. -/
def drop_zero_rows (df : List (κ × List ℚ)) : List (κ × List ℚ) :=
  df.filter (fun r => !(r.2.all (fun x => x == 0)))

/-- `pd.pivot_table(..., index="function", aggfunc=np.sum)` (lines 201-202):
group the stratified rows by their function id and sum the sample columns.
pivot_table additionally sorts the resulting row labels; we keep
first-occurrence order, which permutes rows only and leaves every looked-up
value unchanged. -/
def pivot_sum (df : List ((String × String) × List ℚ)) (nsamp : ℕ) :
    List (String × List ℚ) :=
  ((df.map (fun r => r.1.1)).dedup).map (fun f =>
    (f, (List.range nsamp).map (fun j =>
      ((df.filter (fun r => r.1.1 == f)).map (fun r => r.2.getD j 0)).sum)))

/-- Lines 157-162 of `funcs_by_sample`: the rare set is computed only when
stratified output is requested and at least one threshold differs from its
default of 1; otherwise it stays empty. -/
def pipeline_rare_seqs (input_seq_counts : Tbl) (strat_out : Bool)
    (min_reads min_samples : ℕ) : Except String (List String) :=
  if strat_out = true ∧ (min_reads ≠ 1 ∨ min_samples ≠ 1) then
    id_rare_seqs input_seq_counts min_reads min_samples
  else Except.ok []

/-- `funcs_by_sample` (lines 144-208): per-sample aggregation.  Sample
columns are addressed by position `j < nsamp` (the sample ids only label the
output columns).  `func_ids` is the column header of `input_function_num`.
With `proc > 1` the samples are processed by the joblib worker pool under
completion schedule `sched`; otherwise by a plain loop.  The per-sample
series are concatenated column-wise, all-zero rows are dropped, and in the
stratified case the unstratified table is additionally produced by the
per-function pivot sum. -/
def funcs_by_sample (input_seq_counts : Tbl) (nsamp : ℕ) (input_function_num : Tbl)
    (func_ids : List String) (strat_out : Bool) (proc : ℕ) (sched : List ℕ)
    (min_reads min_samples : ℕ) :
    Except String
      (Option (List ((String × String) × List ℚ)) × List (String × List ℚ)) :=
  match pipeline_rare_seqs input_seq_counts strat_out min_reads min_samples with
  | Except.error e => Except.error e
  | Except.ok rare_seqs =>
    let runSample : ℕ → SampleFuncs := fun j =>
      func_by_seq_abun (sample_col input_seq_counts j) input_function_num
        func_ids rare_seqs strat_out
    let sample_funcs : List SampleFuncs :=
      if proc > 1 then parallel_run runSample nsamp sched (SampleFuncs.unstrat [])
      else (List.range nsamp).map runSample
    if strat_out then
      let df := drop_zero_rows (concat_cols (sample_funcs.map SampleFuncs.stratRows))
      Except.ok (some df, pivot_sum df nsamp)
    else
      Except.ok (none, drop_zero_rows (concat_cols (sample_funcs.map SampleFuncs.unstratRows)))

/-- The unstratified component of a `funcs_by_sample` result. -/
def pipe_unstrat
    (e : Except String
      (Option (List ((String × String) × List ℚ)) × List (String × List ℚ))) :
    List (String × List ℚ) :=
  match e with
  | Except.ok p => p.2
  | Except.error _ => []

/-- A row of a predicted copy-number table that carries the `metadata_NSTI`
divergence-score column (lines 37-58 of `run_metagenome_pipeline`). -/
structure NSTIRow where
  id : String
  vals : List ℚ
  metadata_NSTI : ℚ
deriving DecidableEq

/-- `pred_function[pred_function['metadata_NSTI'] <= max_nsti]`
(lines 48-58): keep exactly the rows whose divergence score is at most
`max_nsti`. -/
def nsti_filter (pred : List NSTIRow) (max_nsti : ℚ) : List NSTIRow :=
  pred.filter (fun r => decide (r.metadata_NSTI ≤ max_nsti))

/-- `pred.drop('metadata_NSTI', axis=1)` (lines 52, 58): the copy-number
table handed to every downstream stage, without the score column. -/
def drop_nsti (pred : List NSTIRow) : Tbl :=
  pred.map (fun r => (r.id, r.vals))

/-! ### General lemmas about the association-list table operations -/

theorem lookup_cons_ne [BEq α] [LawfulBEq α] {k : α} {x : α × β} {tl : List (α × β)}
    (h : k ≠ x.1) : ((x :: tl).lookup k) = tl.lookup k := by
  rcases x with ⟨a, b⟩
  simp only [List.lookup]
  rw [beq_false_of_ne h]

theorem lookup_cons_self [BEq α] [LawfulBEq α] {k : α} {b : β} {tl : List (α × β)} :
    (((k, b) :: tl).lookup k) = some b := by
  simp [List.lookup]

theorem lookup_map_self [BEq α] [LawfulBEq α] (g : α → β) {l : List α} {a : α}
    (h : a ∈ l) : (l.map (fun k => (k, g k))).lookup a = some (g a) := by
  induction l with
  | nil => simp at h
  | cons x tl ih =>
    by_cases hx : a = x
    · subst hx
      simp [List.lookup]
    · rcases List.mem_cons.mp h with h1 | h2
      · exact absurd h1 hx
      · rw [List.map_cons, lookup_cons_ne hx]
        exact ih h2

theorem lookup_map_none [BEq α] [LawfulBEq α] (g : α → β) {l : List α} {a : α}
    (h : a ∉ l) : (l.map (fun k => (k, g k))).lookup a = none := by
  induction l with
  | nil => simp
  | cons x tl ih =>
    simp only [List.mem_cons, not_or] at h
    rw [List.map_cons, lookup_cons_ne h.1]
    exact ih h.2

theorem lookup_eq_none_keys [BEq α] [LawfulBEq α] {l : List (α × β)} {k : α}
    (h : k ∉ l.map Prod.fst) : l.lookup k = none := by
  induction l with
  | nil => simp
  | cons x tl ih =>
    simp only [List.map_cons, List.mem_cons, not_or] at h
    rw [lookup_cons_ne h.1]
    exact ih h.2

theorem lookup_of_mem_nodup [BEq α] [LawfulBEq α] {l : List (α × β)}
    (hnd : (l.map Prod.fst).Nodup) {k : α} {v : β} (h : (k, v) ∈ l) :
    l.lookup k = some v := by
  induction l with
  | nil => simp at h
  | cons x tl ih =>
    rw [List.map_cons, List.nodup_cons] at hnd
    rcases List.mem_cons.mp h with h1 | h2
    · rw [← h1]
      simp [List.lookup]
    · have hk : k ≠ x.1 := by
        intro hEq
        exact hnd.1 (hEq ▸ List.mem_map_of_mem Prod.fst h2)
      rw [lookup_cons_ne hk]
      exact ih hnd.2 h2

theorem getD_map_lt (g : α → β) {l : List α} {j : ℕ} (h : j < l.length)
    (d : β) (e : α) : (l.map g).getD j d = g (l.getD j e) := by
  rw [List.getD_eq_getElem?_getD, List.getD_eq_getElem?_getD, List.getElem?_map,
      List.getElem?_eq_getElem h]
  simp

theorem getD_map_mul (c : ℚ) (l : List ℚ) (j : ℕ) :
    (l.map (fun x => x * c)).getD j 0 = l.getD j 0 * c := by
  by_cases h : j < l.length
  · rw [getD_map_lt _ h 0 0]
  · have h1 : l.length ≤ j := Nat.le_of_not_lt h
    rw [List.getD_eq_getElem?_getD, List.getD_eq_getElem?_getD,
        List.getElem?_eq_none (by simpa using h1), List.getElem?_eq_none h1]
    simp

theorem getD_range_map (g : ℕ → α) {n j : ℕ} (h : j < n) (d : α) :
    ((List.range n).map g).getD j d = g j := by
  rw [getD_map_lt g (by simpa using h) d 0]
  congr 1
  rw [List.getD_eq_getElem?_getD, List.getElem?_range h]
  rfl

theorem range_map_getD (l : List α) (d : α) :
    (List.range l.length).map (fun i => l.getD i d) = l := by
  apply List.ext_getElem
  · simp
  · intro i h1 h2
    simp [List.getD_eq_getElem?_getD, List.getElem?_eq_getElem h2]

theorem lookup_range_map_getD [BEq α] [LawfulBEq α] :
    ∀ (l : List α) (d : α) (g : ℕ → β), l.Nodup → ∀ fi : ℕ, fi < l.length →
      ((List.range l.length).map (fun i => (l.getD i d, g i))).lookup (l.getD fi d)
        = some (g fi) := by
  intro l
  induction l with
  | nil =>
    intro d g _ fi hfi
    simp at hfi
  | cons x tl ih =>
    intro d g hnd fi hfi
    rw [List.nodup_cons] at hnd
    rw [List.length_cons, List.range_succ_eq_map, List.map_cons]
    cases fi with
    | zero =>
      simp [List.lookup]
    | succ k =>
      have hk : k < tl.length := by simpa using hfi
      have hmem : tl.getD k d ∈ tl := by
        rw [List.getD_eq_getElem?_getD, List.getElem?_eq_getElem hk]
        exact List.getElem_mem hk
      have hne : tl.getD k d ≠ x := fun hEq => hnd.1 (hEq ▸ hmem)
      have hkey : (x :: tl).getD (k + 1) d = tl.getD k d := rfl
      have hmaps : List.map ((fun i => ((x :: tl).getD i d, g i)) ∘ Nat.succ)
            (List.range tl.length)
          = (List.range tl.length).map (fun i => (tl.getD i d, g (i + 1))) := by
        apply List.map_congr_left
        intro i _
        rfl
      rw [hkey, List.map_map, hmaps,
          lookup_cons_ne (show tl.getD k d ≠ ((x :: tl).getD 0 d, g 0).1 by simpa using hne)]
      exact ih d (fun i => g (i + 1)) hnd.2 k hk

theorem getD_zero_of_all_zero {l : List ℚ} (h : l.all (fun q => q == (0 : ℚ)) = true)
    (j : ℕ) : l.getD j 0 = 0 := by
  by_cases hj : j < l.length
  · rw [List.getD_eq_getElem?_getD, List.getElem?_eq_getElem hj]
    simpa using List.all_eq_true.mp h _ (List.getElem_mem hj)
  · rw [List.getD_eq_getElem?_getD, List.getElem?_eq_none (Nat.le_of_not_lt hj)]
    rfl

theorem tbl_val_drop_zero [BEq κ] [LawfulBEq κ] {df : List (κ × List ℚ)}
    (hnd : (df.map Prod.fst).Nodup) (k : κ) (j : ℕ) :
    tbl_val (drop_zero_rows df) k j = tbl_val df k j := by
  induction df with
  | nil => rfl
  | cons x tl ih =>
    rw [List.map_cons, List.nodup_cons] at hnd
    by_cases hk : k = x.1
    · subst hk
      by_cases hz : x.2.all (fun q => q == (0 : ℚ)) = true
      · have hdrop : drop_zero_rows (x :: tl) = drop_zero_rows tl := by
          simp [drop_zero_rows, List.filter, hz]
        have hkeys : x.1 ∉ (drop_zero_rows tl).map Prod.fst := by
          intro hmem
          rcases List.mem_map.mp hmem with ⟨r, hr, hr1⟩
          exact hnd.1 (hr1 ▸ List.mem_map_of_mem Prod.fst (List.mem_of_mem_filter hr))
        rw [hdrop]
        unfold tbl_val
        rw [lookup_eq_none_keys hkeys]
        rcases x with ⟨a, v⟩
        rw [lookup_cons_self]
        exact (getD_zero_of_all_zero hz j).symm
      · have hdrop : drop_zero_rows (x :: tl) = x :: drop_zero_rows tl := by
          simp [drop_zero_rows, List.filter, hz]
        rw [hdrop]
        rcases x with ⟨a, v⟩
        unfold tbl_val
        rw [lookup_cons_self, lookup_cons_self]
    · have htail : tbl_val (drop_zero_rows tl) k j = tbl_val tl k j := ih hnd.2
      unfold tbl_val at htail ⊢
      rw [lookup_cons_ne hk]
      rcases hcase : (x.2.all (fun q => q == (0 : ℚ))) with _ | _
      · have hdrop : drop_zero_rows (x :: tl) = x :: drop_zero_rows tl := by
          simp [drop_zero_rows, List.filter, hcase]
        rw [hdrop, lookup_cons_ne hk]
        exact htail
      · have hdrop : drop_zero_rows (x :: tl) = drop_zero_rows tl := by
          simp [drop_zero_rows, List.filter, hcase]
        rw [hdrop]
        exact htail

theorem pivot_sum_val (df : List ((String × String) × List ℚ)) (nsamp : ℕ)
    (f : String) {j : ℕ} (hj : j < nsamp) :
    tbl_val (pivot_sum df nsamp) f j
      = ((df.filter (fun r => r.1.1 == f)).map (fun r => r.2.getD j 0)).sum := by
  unfold pivot_sum tbl_val
  by_cases hf : f ∈ (df.map (fun r => r.1.1)).dedup
  · rw [lookup_map_self _ hf, Option.getD_some, getD_range_map _ hj]
  · rw [lookup_map_none _ hf]
    have hnone : df.filter (fun r => r.1.1 == f) = [] := by
      rw [List.filter_eq_nil_iff]
      intro r hr hbeq
      rw [List.mem_dedup] at hf
      have hr1 : r.1.1 = f := by simpa using hbeq
      exact hf (hr1 ▸ List.mem_map_of_mem (fun r => r.1.1) hr)
    rw [hnone]
    simp

/-! ### Reduction lemmas for `funcs_by_sample` -/

theorem pipeline_rare_seqs_off (counts : Tbl) (r s : ℕ) :
    pipeline_rare_seqs counts false r s = Except.ok [] := by
  unfold pipeline_rare_seqs
  simp

theorem pipeline_rare_seqs_default (counts : Tbl) (b : Bool) :
    pipeline_rare_seqs counts b 1 1 = Except.ok [] := by
  unfold pipeline_rare_seqs
  simp

theorem func_by_seq_abun_unstrat (s : String → ℚ) (f : Tbl) (fids : List String) :
    func_by_seq_abun s f fids [] false
      = SampleFuncs.unstrat ((List.range fids.length).map (fun fi =>
          (fids.getD fi "",
            col_sum (f.map (fun r => (r.1, r.2.map (fun x => x * s r.1)))) fi))) := rfl

theorem funcs_by_sample_false_eq (counts func_num : Tbl) (fids : List String)
    (nsamp : ℕ) (sched : List ℕ) (r s : ℕ) :
    funcs_by_sample counts nsamp func_num fids false 1 sched r s
      = Except.ok (none, drop_zero_rows (concat_cols
          (((List.range nsamp).map (fun j =>
              func_by_seq_abun (sample_col counts j) func_num fids [] false)).map
            SampleFuncs.unstratRows))) := by
  unfold funcs_by_sample
  rw [pipeline_rare_seqs_off]
  rfl

theorem funcs_by_sample_true_ok {counts func_num : Tbl} {fids : List String}
    {nsamp proc : ℕ} {sched : List ℕ} {r s : ℕ} {st un}
    (h : funcs_by_sample counts nsamp func_num fids true proc sched r s
          = Except.ok (st, un)) :
    ∃ df, st = some df ∧ un = pivot_sum df nsamp := by
  unfold funcs_by_sample at h
  cases hrare : pipeline_rare_seqs counts true r s with
  | error e =>
    rw [hrare] at h
    simp at h
  | ok rare =>
    rw [hrare] at h
    simp only [if_true, reduceIte] at h
    rw [Except.ok.injEq, Prod.mk.injEq] at h
    exact ⟨_, h.1.symm, h.2.symm⟩

theorem parallel_run_perm (f : ℕ → α) (n : ℕ) {sched : List ℕ}
    (hperm : sched.Perm (List.range n)) (d : α) :
    parallel_run f n sched d = (List.range n).map f := by
  unfold parallel_run parallel_collect
  apply List.map_congr_left
  intro i hi
  rw [lookup_map_self f (hperm.mem_iff.mpr hi)]
  rfl

theorem concat_cols_range [BEq κ] (g : ℕ → List (κ × ℚ)) {n : ℕ} (hn : 0 < n) :
    concat_cols ((List.range n).map g)
      = ((g 0).map Prod.fst).map (fun k =>
          (k, ((List.range n).map g).map (fun c => ((c.lookup k).getD 0)))) := by
  obtain ⟨m, rfl⟩ : ∃ m, n = m + 1 := ⟨n - 1, (Nat.succ_pred_eq_of_pos hn).symm⟩
  unfold concat_cols
  congr 1
  rw [List.range_succ_eq_map, List.map_cons, List.headD_cons]

theorem unstrat_val_formula (counts func_num : Tbl) (fids : List String)
    (nsamp : ℕ) (hnd : fids.Nodup) {fi j : ℕ} (hfi : fi < fids.length)
    (hj : j < nsamp) :
    tbl_val (pipe_unstrat (funcs_by_sample counts nsamp func_num fids false 1 [] 1 1))
        (fids.getD fi "") j
      = (func_num.map (fun r => tbl_val counts r.1 j * r.2.getD fi 0)).sum := by
  have hn : 0 < nsamp := Nat.lt_of_le_of_lt (Nat.zero_le j) hj
  rw [funcs_by_sample_false_eq]
  unfold pipe_unstrat
  set colRows : ℕ → List (String × ℚ) := fun jj =>
    (List.range fids.length).map (fun fi' =>
      (fids.getD fi' "",
        col_sum (func_num.map (fun r =>
          (r.1, r.2.map (fun x => x * sample_col counts jj r.1)))) fi')) with hcolRows
  have hcols : ((List.range nsamp).map (fun jj =>
        func_by_seq_abun (sample_col counts jj) func_num fids [] false)).map
        SampleFuncs.unstratRows
      = (List.range nsamp).map colRows := by
    rw [List.map_map]
    apply List.map_congr_left
    intro i _
    rw [Function.comp_apply, func_by_seq_abun_unstrat]
    rfl
  rw [hcols, concat_cols_range colRows hn]
  have hkeys : ((colRows 0).map Prod.fst) = fids := by
    rw [hcolRows, List.map_map]
    exact range_map_getD fids ""
  rw [hkeys]
  have hndkeys : (((fids.map (fun k =>
      (k, ((List.range nsamp).map colRows).map (fun c => ((c.lookup k).getD 0))))).map
        Prod.fst)).Nodup := by
    rw [List.map_map]
    have hcompid : (Prod.fst ∘ fun k : String =>
        (k, ((List.range nsamp).map colRows).map (fun c => ((c.lookup k).getD 0)))) = id := rfl
    rw [hcompid, List.map_id]
    exact hnd
  rw [tbl_val_drop_zero hndkeys]
  unfold tbl_val
  have hkmem : fids.getD fi "" ∈ fids := by
    rw [List.getD_eq_getElem?_getD, List.getElem?_eq_getElem hfi]
    exact List.getElem_mem hfi
  rw [lookup_map_self _ hkmem, Option.getD_some]
  have hlen : j < ((List.range nsamp).map colRows).length := by simpa using hj
  rw [getD_map_lt _ hlen 0 []]
  have hgd : ((List.range nsamp).map colRows).getD j [] = colRows j :=
    getD_range_map colRows hj []
  rw [hgd, hcolRows]
  rw [lookup_range_map_getD fids "" _ hnd fi hfi, Option.getD_some]
  unfold col_sum
  rw [List.map_map]
  apply congrArg List.sum
  apply List.map_congr_left
  intro r _
  rw [Function.comp_apply]
  show ((r.2.map (fun x => x * sample_col counts j r.1)).getD fi 0) = _
  rw [getD_map_mul, mul_comm]
  rfl

/-! ### Claim theorems -/

/-- C1: for every sample `s` and every function `f`, the unstratified
aggregated output value is the sum over all sequences `q` of the normalized
abundance of `q` in `s` times the predicted copy number of `f` in `q`.  The
first conjunct identifies the normalized table that `norm_by_marker_copies`
produces (all finite since no marker copy number is zero); the second
computes the unstratified output of `funcs_by_sample` run on those
normalized values.  All-zero function rows are dropped from the output table
(source line 189); for such a function both the looked-up value and the
claimed sum are zero, so the equation covers every function column. -/
theorem unstrat_output_is_abundance_times_copy (counts : Tbl) (marker : String → ℚ)
    (func_num : Tbl) (fids : List String) (nsamp : ℕ) (hnd : fids.Nodup)
    (hmark : ∀ r ∈ counts, marker r.1 ≠ 0) :
    norm_by_marker_copies counts marker
        = counts.map (fun r => (r.1, r.2.map (fun x => PVal.fin (round2 (x / marker r.1)))))
    ∧ (∀ fi, fi < fids.length → ∀ j, j < nsamp →
        tbl_val (pipe_unstrat (funcs_by_sample
            (counts.map (fun r => (r.1, r.2.map (fun x => round2 (x / marker r.1)))))
            nsamp func_num fids false 1 [] 1 1)) (fids.getD fi "") j
          = (func_num.map (fun r =>
              tbl_val (counts.map (fun r => (r.1, r.2.map (fun x => round2 (x / marker r.1)))))
                r.1 j * r.2.getD fi 0)).sum) := by
  constructor
  · unfold norm_by_marker_copies
    apply List.map_congr_left
    intro r hr
    have hm : marker r.1 ≠ 0 := hmark r hr
    simp [pdiv, roundP, hm]
  · intro fi hfi j hj
    exact unstrat_val_formula _ func_num fids nsamp hnd hfi hj

/-- Witness for C1, the spec's concrete scenario: abundance
`{seqA: {s1: 10, s2: 0}, seqB: {s1: 0, s2: 5}}`, marker `{seqA: 2, seqB: 1}`,
function `{seqA: {f1: 1}, seqB: {f1: 2}}` gives normalized abundance
`{seqA: {s1: 5, s2: 0}, seqB: {s1: 0, s2: 5}}` and unstratified output
`{f1: {s1: 5, s2: 10}}`. -/
theorem unstrat_output_is_abundance_times_copy_witness :
    norm_by_marker_copies [("seqA", [10, 0]), ("seqB", [0, 5])]
        (fun q => if q = "seqA" then 2 else 1)
      = [("seqA", [PVal.fin 5, PVal.fin 0]), ("seqB", [PVal.fin 0, PVal.fin 5])]
    ∧ pipe_unstrat (funcs_by_sample [("seqA", [(5 : ℚ), 0]), ("seqB", [0, 5])] 2
        [("seqA", [1]), ("seqB", [2])] ["f1"] false 1 [] 1 1) = [("f1", [5, 10])]
    ∧ tbl_val (pipe_unstrat (funcs_by_sample [("seqA", [(5 : ℚ), 0]), ("seqB", [0, 5])] 2
        [("seqA", [1]), ("seqB", [2])] ["f1"] false 1 [] 1 1))
        ((["f1"] : List String).getD 0 "") 1
      = (([("seqA", [(1 : ℚ)]), ("seqB", [2])] : Tbl).map (fun r =>
          tbl_val [("seqA", [(5 : ℚ), 0]), ("seqB", [0, 5])] r.1 1 * r.2.getD 0 0)).sum := by
  have hmark : ∀ r ∈ ([("seqA", [10, 0]), ("seqB", [0, 5])] : Tbl),
      (fun q => if q = "seqA" then (2 : ℚ) else 1) r.1 ≠ 0 := by
    intro r hr
    fin_cases hr <;> with_unfolding_all decide
  refine ⟨?_, by with_unfolding_all rfl, ?_⟩
  · have h1 := (unstrat_output_is_abundance_times_copy [("seqA", [10, 0]), ("seqB", [0, 5])]
      (fun q => if q = "seqA" then 2 else 1) [("seqA", [1]), ("seqB", [2])] ["f1"] 2
      (by decide) hmark).1
    with_unfolding_all exact h1
  · have h2 := (unstrat_output_is_abundance_times_copy [("seqA", [10, 0]), ("seqB", [0, 5])]
      (fun q => if q = "seqA" then 2 else 1) [("seqA", [1]), ("seqB", [2])] ["f1"] 2
      (by decide) hmark).2 0 (by decide) 1 (by decide)
    with_unfolding_all exact h2

/-- C2: when stratified output is requested and the aggregation succeeds, the
unstratified table's value at (f, s) equals exactly the sum, over all rows of
the stratified table whose function component is f (the RARE-collapsed row
included, since it is a row of the stratified table like any other), of that
row's value at sample s: the unstratified table is the per-function pivot sum
of the stratified one by construction (source lines 199-202). -/
theorem strat_unstrat_consistency (counts func_num : Tbl) (fids : List String)
    (nsamp proc : ℕ) (sched : List ℕ) (min_reads min_samples : ℕ)
    (st : List ((String × String) × List ℚ)) (un : List (String × List ℚ))
    (h : funcs_by_sample counts nsamp func_num fids true proc sched min_reads min_samples
          = Except.ok (some st, un))
    (f : String) (j : ℕ) (hj : j < nsamp) :
    tbl_val un f j
      = ((st.filter (fun row => row.1.1 == f)).map (fun row => row.2.getD j 0)).sum := by
  obtain ⟨df, hdf, hun⟩ := funcs_by_sample_true_ok h
  obtain rfl : st = df := Option.some.inj hdf
  rw [hun]
  exact pivot_sum_val st nsamp f hj

/-- Witness for C2 on a concrete stratified run with two contributing
sequences for one function. -/
theorem strat_unstrat_consistency_witness :
    funcs_by_sample [("a", [(1 : ℚ)]), ("b", [1])] 1 [("a", [(1 : ℚ)]), ("b", [1])]
        ["f"] true 1 [] 1 1
      = Except.ok (some [(("f", "a"), [1]), (("f", "b"), [1])], [("f", [2])])
    ∧ tbl_val [("f", [(2 : ℚ)])] "f" 0
      = ((([(("f", "a"), [(1 : ℚ)]), (("f", "b"), [1])]).filter
            (fun row => row.1.1 == "f")).map (fun row => row.2.getD 0 0)).sum := by
  refine ⟨by with_unfolding_all rfl, ?_⟩
  exact strat_unstrat_consistency [("a", [(1 : ℚ)]), ("b", [1])]
    [("a", [(1 : ℚ)]), ("b", [1])] ["f"] 1 1 [] 1 1
    [(("f", "a"), [1]), (("f", "b"), [1])] [("f", [2])]
    (by with_unfolding_all rfl) "f" 0 (by decide)

/-- C3 counterexample: a zero marker copy number does not abort
normalization and does not produce any labelled error; the function returns
a table whose affected row holds the non-finite value (pandas `inf`/`NaN`,
here `PVal.undef`).  This refutes the claim that normalization fails with an
explicit error and never yields an infinite/NaN row. -/
theorem zero_marker_silently_undef_cex :
    norm_by_marker_copies [("seqA", [(10 : ℚ)])] (fun _ => 0)
      = [("seqA", [PVal.undef])] := by rfl

/-- C3 amended: normalization never raises an error; a sequence whose marker
copy number is zero has its whole row silently mapped to non-finite
(`inf`/`NaN`) values, while a sequence with a non-zero marker is divided and
rounded normally. -/
theorem zero_marker_no_error_amended (counts : Tbl) (marker : String → ℚ)
    (q : String) (vals : List ℚ) (hmem : (q, vals) ∈ counts) :
    (marker q = 0 →
      (q, vals.map (fun _ => PVal.undef)) ∈ norm_by_marker_copies counts marker)
    ∧ (marker q ≠ 0 →
      (q, vals.map (fun x => PVal.fin (round2 (x / marker q))))
        ∈ norm_by_marker_copies counts marker) := by
  constructor
  · intro h0
    refine List.mem_map.mpr ⟨(q, vals), hmem, ?_⟩
    simp [pdiv, roundP, h0]
  · intro h0
    refine List.mem_map.mpr ⟨(q, vals), hmem, ?_⟩
    simp [pdiv, roundP, h0]

/-- Witness for the amended C3: the zero-marker row of the counterexample
input is emitted as a fully non-finite row. -/
theorem zero_marker_no_error_amended_witness :
    ("seqA", [(10 : ℚ)]) ∈ ([("seqA", [(10 : ℚ)])] : Tbl)
    ∧ ("seqA", ([(10 : ℚ)] : List ℚ).map (fun _ => PVal.undef))
        ∈ norm_by_marker_copies [("seqA", [(10 : ℚ)])] (fun _ => 0) := by
  refine ⟨by decide, ?_⟩
  exact (zero_marker_no_error_amended [("seqA", [(10 : ℚ)])] (fun _ => 0) "seqA" [10]
    (by decide)).1 rfl

/-- C4: with stratified output requested and at least one non-default
threshold, an abundance table containing a sequence literally named "RARE"
makes the whole aggregation fail fast with the naming-conflict error -- for
every threshold pair, before any threshold is evaluated -- so the sequence
is never silently reclassified. -/
theorem rare_label_guard (counts func_num : Tbl) (fids : List String)
    (nsamp proc : ℕ) (sched : List ℕ) (min_reads min_samples : ℕ)
    (hthr : min_reads ≠ 1 ∨ min_samples ≠ 1)
    (hR : "RARE" ∈ counts.map Prod.fst) :
    funcs_by_sample counts nsamp func_num fids true proc sched min_reads min_samples
      = Except.error "Stopping: the sequence called \"RARE\" in the sequence abundance table should be re-named." := by
  unfold funcs_by_sample
  have hrare : pipeline_rare_seqs counts true min_reads min_samples
      = Except.error "Stopping: the sequence called \"RARE\" in the sequence abundance table should be re-named." := by
    unfold pipeline_rare_seqs id_rare_seqs
    rw [if_pos ⟨rfl, hthr⟩, if_pos hR]
  rw [hrare]

/-- Witness for C4 at a concrete table containing a sequence named "RARE". -/
theorem rare_label_guard_witness :
    ((2 : ℕ) ≠ 1 ∨ (1 : ℕ) ≠ 1)
    ∧ "RARE" ∈ ([("RARE", [(3 : ℚ)])] : Tbl).map Prod.fst
    ∧ funcs_by_sample [("RARE", [(3 : ℚ)])] 1 [("RARE", [1])] ["f"] true 1 [] 2 1
      = Except.error "Stopping: the sequence called \"RARE\" in the sequence abundance table should be re-named." := by
  refine ⟨by decide, by decide, ?_⟩
  exact rare_label_guard [("RARE", [(3 : ℚ)])] [("RARE", [1])] ["f"] 1 1 [] 2 1
    (Or.inl (by decide)) (by decide)

/-- C5: the NSTI confidence filter is inclusive: a row survives iff its
divergence score is at most the threshold.  On the concrete score column
[0.5, 1.0, 2.5] with threshold 2.0 exactly the 0.5- and 1.0-scored rows
survive, and the 2.5-scored sequence is absent from the copy-number table
handed to every downstream stage (the filtered table with the score column
dropped). -/
theorem nsti_filter_inclusive (pred : List NSTIRow) (max_nsti : ℚ) (r : NSTIRow) :
    (r ∈ nsti_filter pred max_nsti ↔ r ∈ pred ∧ r.metadata_NSTI ≤ max_nsti)
    ∧ nsti_filter
        [⟨"seqA", [1], 1 / 2⟩, ⟨"seqB", [1], 1⟩, ⟨"seqC", [1], 5 / 2⟩] 2
        = [⟨"seqA", [1], 1 / 2⟩, ⟨"seqB", [1], 1⟩]
    ∧ "seqC" ∉ (drop_nsti (nsti_filter
        [⟨"seqA", [1], 1 / 2⟩, ⟨"seqB", [1], 1⟩, ⟨"seqC", [1], 5 / 2⟩] 2)).map Prod.fst := by
  refine ⟨?_, by with_unfolding_all rfl, by with_unfolding_all decide⟩
  constructor
  · intro h
    have h1 := List.mem_filter.mp h
    exact ⟨h1.1, by simpa using h1.2⟩
  · intro h
    exact List.mem_filter.mpr ⟨h.1, by simpa using h.2⟩

/-- Witness for C5: the 1.0-scored row survives the 2.0 threshold. -/
theorem nsti_filter_inclusive_witness :
    (⟨"seqB", [1], 1⟩ : NSTIRow) ∈ nsti_filter
        [⟨"seqA", [1], 1 / 2⟩, ⟨"seqB", [1], 1⟩, ⟨"seqC", [1], 5 / 2⟩] 2
    ↔ (⟨"seqB", [1], 1⟩ : NSTIRow)
        ∈ [⟨"seqA", [1], 1 / 2⟩, ⟨"seqB", [1], 1⟩, ⟨"seqC", [1], 5 / 2⟩]
      ∧ (⟨"seqB", [1], 1⟩ : NSTIRow).metadata_NSTI ≤ 2 :=
  (nsti_filter_inclusive
    [⟨"seqA", [1], 1 / 2⟩, ⟨"seqB", [1], 1⟩, ⟨"seqC", [1], 5 / 2⟩] 2 ⟨"seqB", [1], 1⟩).1

/-- C6 counterexample: a sample whose total abundance is zero does not make
`calc_weighted_nsti` raise any flagged error; the function totals normally
and silently emits the non-finite `NaN` marker for that sample. -/
theorem weighted_nsti_zero_total_cex :
    calc_weighted_nsti [("seqA", [(0 : ℚ)])] (fun _ => 1) 1 = [PVal.undef] := by
  with_unfolding_all rfl

/-- C6 amended: for every sample s the weighted NSTI value is the
abundance-weighted mean `(sum_q abundance[q,s] * score[q]) / (sum_q
abundance[q,s])` whenever the sample's total abundance is non-zero; a
zero-total-abundance sample silently receives the non-finite `NaN` value
(`PVal.undef`) rather than an error. -/
theorem weighted_nsti_formula_amended (seq_counts : Tbl) (nsti : String → ℚ)
    (nsamp : ℕ) (j : ℕ) (hj : j < nsamp) :
    (calc_weighted_nsti seq_counts nsti nsamp).getD j PVal.undef
      = (if col_sum seq_counts j = 0 then PVal.undef
         else PVal.fin ((seq_counts.map (fun r => r.2.getD j 0 * nsti r.1)).sum
              / col_sum seq_counts j)) := by
  unfold calc_weighted_nsti
  rw [getD_range_map _ hj]
  have hnum : col_sum (seq_counts.map (fun r => (r.1, r.2.map (fun x => x * nsti r.1)))) j
      = (seq_counts.map (fun r => r.2.getD j 0 * nsti r.1)).sum := by
    unfold col_sum
    rw [List.map_map]
    apply congrArg List.sum
    apply List.map_congr_left
    intro r _
    exact getD_map_mul _ _ _
  rw [hnum]
  rfl

/-- Witness for the amended C6 at a one-sequence, one-sample table with
non-zero total abundance. -/
theorem weighted_nsti_formula_amended_witness :
    (0 : ℕ) < 1
    ∧ (calc_weighted_nsti [("seqA", [(2 : ℚ)])] (fun _ => 3) 1).getD 0 PVal.undef
      = (if col_sum [("seqA", [(2 : ℚ)])] 0 = 0 then PVal.undef
         else PVal.fin ((([("seqA", [(2 : ℚ)])] : Tbl).map
             (fun r => r.2.getD 0 0 * (fun _ : String => (3 : ℚ)) r.1)).sum
              / col_sum [("seqA", [(2 : ℚ)])] 0)) :=
  ⟨by decide, weighted_nsti_formula_amended [("seqA", [2])] (fun _ => 3) 1 0 (by decide)⟩

/-- C7 counterexample: on the one-sequence table whose only row is all zero,
with both thresholds at their default of 1 and stratified output requested,
the pipeline's rare set is empty (the classifier is skipped entirely), yet
the union of the two threshold-failing sets is {"q"} (0 < 1 on both
criteria).  The pipeline's rare set therefore is not the union of the
failing sets for every threshold pair, refuting the claimed conjunction. -/
theorem rare_set_union_cex :
    pipeline_rare_seqs [("q", [(0 : ℚ)])] true 1 1 = Except.ok []
    ∧ (low_freq_seq [("q", [(0 : ℚ)])] 1).union (few_samples_seq [("q", [(0 : ℚ)])] 1)
        = ["q"] := by
  constructor
  · with_unfolding_all rfl
  · with_unfolding_all rfl


theorem mem_list_union_iff [BEq α] [LawfulBEq α] {x : α} {l1 l2 : List α} :
    x ∈ l1.union l2 ↔ x ∈ l1 ∨ x ∈ l2 := List.mem_union_iff

/-- C7 amended: whenever the classifier actually runs -- stratified output
with at least one threshold different from 1 and no sequence literally named
"RARE" -- the rare set is exactly the union of the low-frequency and
few-samples failing sets; with both thresholds equal to 1 the classifier is
skipped and the rare set is empty regardless of the table; and the union of
failing sets itself never shrinks when either threshold is raised. -/
theorem rare_set_union_monotone_amended (counts : Tbl)
    (min_reads min_samples r2 s2 : ℕ) :
    ((min_reads ≠ 1 ∨ min_samples ≠ 1) → "RARE" ∉ counts.map Prod.fst →
        pipeline_rare_seqs counts true min_reads min_samples
          = Except.ok ((low_freq_seq counts min_reads).union
              (few_samples_seq counts min_samples)))
    ∧ (∀ b : Bool, pipeline_rare_seqs counts b 1 1 = Except.ok [])
    ∧ (min_reads ≤ r2 → min_samples ≤ s2 → ∀ q,
        q ∈ (low_freq_seq counts min_reads).union (few_samples_seq counts min_samples) →
        q ∈ (low_freq_seq counts r2).union (few_samples_seq counts s2)) := by
  refine ⟨?_, ?_, ?_⟩
  · intro hthr hR
    unfold pipeline_rare_seqs id_rare_seqs
    rw [if_pos ⟨rfl, hthr⟩, if_neg hR]
  · intro b
    unfold pipeline_rare_seqs
    simp
  · intro hr hs q hq
    rw [mem_list_union_iff] at hq ⊢
    rcases hq with hq | hq
    · left
      unfold low_freq_seq at hq ⊢
      rcases List.mem_map.mp hq with ⟨row, hrow, hq1⟩
      have h1 := List.mem_filter.mp hrow
      refine List.mem_map.mpr ⟨row, List.mem_filter.mpr ⟨h1.1, ?_⟩, hq1⟩
      have h2 : row.2.sum < (min_reads : ℚ) := by simpa using h1.2
      have h3 : (min_reads : ℚ) ≤ (r2 : ℚ) := by exact_mod_cast hr
      simpa using lt_of_lt_of_le h2 h3
    · right
      unfold few_samples_seq at hq ⊢
      rcases List.mem_map.mp hq with ⟨row, hrow, hq1⟩
      have h1 := List.mem_filter.mp hrow
      refine List.mem_map.mpr ⟨row, List.mem_filter.mpr ⟨h1.1, ?_⟩, hq1⟩
      have h2 : row.2.countP (fun x => x != 0) < min_samples := by simpa using h1.2
      simpa using lt_of_lt_of_le h2 hs

/-- Witness for the amended C7 at a concrete table and thresholds (2, 1). -/
theorem rare_set_union_monotone_amended_witness :
    ((2 : ℕ) ≠ 1 ∨ (1 : ℕ) ≠ 1)
    ∧ "RARE" ∉ ([("q", [(0 : ℚ), 3])] : Tbl).map Prod.fst
    ∧ pipeline_rare_seqs [("q", [(0 : ℚ), 3])] true 2 1
        = Except.ok ((low_freq_seq [("q", [(0 : ℚ), 3])] 2).union
            (few_samples_seq [("q", [(0 : ℚ), 3])] 1)) := by
  refine ⟨by decide, by decide, ?_⟩
  exact (rare_set_union_monotone_amended [("q", [(0 : ℚ), 3])] 2 1 2 1).1
    (Or.inl (by decide)) (by decide)

/-- C8: with any degree of parallelism greater than 1 and any completion
order of the per-sample worker tasks, the aggregator's output is identical
to its sequential (proc = 1) output: results are re-keyed by submission
index on collection, so the assembled tables do not depend on the
schedule. -/
theorem parallel_equals_sequential (counts func_num : Tbl) (fids : List String)
    (nsamp : ℕ) (strat_out : Bool) (proc : ℕ) (hproc : 1 < proc)
    (sched : List ℕ) (hperm : sched.Perm (List.range nsamp))
    (min_reads min_samples : ℕ) :
    funcs_by_sample counts nsamp func_num fids strat_out proc sched min_reads min_samples
      = funcs_by_sample counts nsamp func_num fids strat_out 1 [] min_reads min_samples := by
  unfold funcs_by_sample
  cases hrare : pipeline_rare_seqs counts strat_out min_reads min_samples with
  | error e => rfl
  | ok rare =>
    simp only [hproc, gt_iff_lt, if_true, lt_self_iff_false, if_false]
    rw [parallel_run_perm _ nsamp hperm]

/-- Witness for C8: two samples, two workers, completion order reversed. -/
theorem parallel_equals_sequential_witness :
    (1 : ℕ) < 2
    ∧ ([1, 0] : List ℕ).Perm (List.range 2)
    ∧ funcs_by_sample [("a", [(1 : ℚ), 2]), ("b", [3, 4])] 2
        [("a", [(1 : ℚ), 0]), ("b", [0, 2])] ["f1", "f2"] true 2 [1, 0] 1 1
      = funcs_by_sample [("a", [(1 : ℚ), 2]), ("b", [3, 4])] 2
        [("a", [(1 : ℚ), 0]), ("b", [0, 2])] ["f1", "f2"] true 1 [] 1 1 := by
  refine ⟨by decide, by decide, ?_⟩
  exact parallel_equals_sequential [("a", [(1 : ℚ), 2]), ("b", [3, 4])]
    [("a", [(1 : ℚ), 0]), ("b", [0, 2])] ["f1", "f2"] 2 true 2 (by decide) [1, 0]
    (by decide) 1 1

/-- C9: when stratified output is not requested the aggregator returns a
pair whose first component is `none` alongside the unstratified table (and
`run_metagenome_pipeline` returns this pair unchanged, source lines 90-95);
when stratified output is requested and the computation succeeds, the first
component is always a real (`some`) stratified table. -/
theorem strat_flag_output_shape (counts func_num : Tbl) (fids : List String)
    (nsamp proc : ℕ) (sched : List ℕ) (min_reads min_samples : ℕ) :
    ((funcs_by_sample counts nsamp func_num fids false proc sched min_reads min_samples).map
        Prod.fst = Except.ok none)
    ∧ (∀ p, funcs_by_sample counts nsamp func_num fids true proc sched min_reads min_samples
          = Except.ok p → p.1.isSome = true) := by
  constructor
  · unfold funcs_by_sample
    rw [pipeline_rare_seqs_off]
    rfl
  · intro p hp
    obtain ⟨df, h1, h2⟩ := funcs_by_sample_true_ok (show _ = Except.ok (p.1, p.2) from hp)
    rw [h1]
    rfl

/-- Witness for C9 at a concrete one-sequence table, both flag values. -/
theorem strat_flag_output_shape_witness :
    ((funcs_by_sample [("a", [(1 : ℚ)])] 1 [("a", [(1 : ℚ)])] ["g"] false 1 [] 1 1).map
        Prod.fst = Except.ok none)
    ∧ (((some [(("g", "a"), [(1 : ℚ)])], [("g", [(1 : ℚ)])]) :
          Option (List ((String × String) × List ℚ)) × List (String × List ℚ)).1.isSome
        = true) := by
  constructor
  · exact (strat_flag_output_shape [("a", [1])] [("a", [1])] ["g"] 1 1 [] 1 1).1
  · exact (strat_flag_output_shape [("a", [1])] [("a", [1])] ["g"] 1 1 [] 1 1).2
      (some [(("g", "a"), [1])], [("g", [1])]) (by with_unfolding_all rfl)

/-- C10: both rare-sequence threshold comparisons are strict: a sequence
whose total count across all samples equals `min_reads` exactly is not
classified low-frequency, and one that is non-zero in exactly `min_samples`
samples is not classified few-samples; it therefore belongs to neither
failing set nor to their union. -/
theorem rare_thresholds_strict (counts : Tbl) (q : String) (row : List ℚ)
    (min_reads min_samples : ℕ) (hnd : (counts.map Prod.fst).Nodup)
    (hmem : (q, row) ∈ counts) (hsum : row.sum = (min_reads : ℚ))
    (hcnt : row.countP (fun x => x != 0) = min_samples) :
    q ∉ low_freq_seq counts min_reads ∧ q ∉ few_samples_seq counts min_samples
    ∧ q ∉ (low_freq_seq counts min_reads).union (few_samples_seq counts min_samples) := by
  have hlq : counts.lookup q = some row := lookup_of_mem_nodup hnd hmem
  have hlow : q ∉ low_freq_seq counts min_reads := by
    intro h
    unfold low_freq_seq at h
    rcases List.mem_map.mp h with ⟨r, hr, hr1⟩
    have h1 := List.mem_filter.mp hr
    have hlr : counts.lookup r.1 = some r.2 :=
      lookup_of_mem_nodup hnd (show (r.1, r.2) ∈ counts from h1.1)
    rw [hr1, hlq] at hlr
    have hrow : r.2 = row := Option.some.inj hlr.symm
    have h2 : r.2.sum < (min_reads : ℚ) := by simpa using h1.2
    rw [hrow, hsum] at h2
    exact lt_irrefl _ h2
  have hfew : q ∉ few_samples_seq counts min_samples := by
    intro h
    unfold few_samples_seq at h
    rcases List.mem_map.mp h with ⟨r, hr, hr1⟩
    have h1 := List.mem_filter.mp hr
    have hlr : counts.lookup r.1 = some r.2 :=
      lookup_of_mem_nodup hnd (show (r.1, r.2) ∈ counts from h1.1)
    rw [hr1, hlq] at hlr
    have hrow : r.2 = row := Option.some.inj hlr.symm
    have h2 : r.2.countP (fun x => x != 0) < min_samples := by simpa using h1.2
    rw [hrow, hcnt] at h2
    exact lt_irrefl _ h2
  refine ⟨hlow, hfew, ?_⟩
  intro h
  rcases mem_list_union_iff.mp h with h | h
  · exact hlow h
  · exact hfew h

/-- Witness for C10: a sequence with total count 2 against `min_reads = 2`
and presence in exactly 1 of 2 samples against `min_samples = 1` fails
neither criterion. -/
theorem rare_thresholds_strict_witness :
    (([("a", [(2 : ℚ), 0])] : Tbl).map Prod.fst).Nodup
    ∧ ("a", [(2 : ℚ), 0]) ∈ ([("a", [(2 : ℚ), 0])] : Tbl)
    ∧ [(2 : ℚ), 0].sum = ((2 : ℕ) : ℚ)
    ∧ [(2 : ℚ), 0].countP (fun x => x != 0) = 1
    ∧ "a" ∉ low_freq_seq [("a", [(2 : ℚ), 0])] 2
    ∧ "a" ∉ few_samples_seq [("a", [(2 : ℚ), 0])] 1 := by
  have h := rare_thresholds_strict [("a", [(2 : ℚ), 0])] "a" [(2 : ℚ), 0] 2 1
    (by decide) (by decide) (by with_unfolding_all decide) (by with_unfolding_all decide)
  exact ⟨by decide, by decide, by with_unfolding_all decide, by with_unfolding_all decide,
    h.1, h.2.1⟩
